import Mathlib

/-!
Verification of the addcache in-memory key-value cache (Go package
`addcache`) against its specification.

Shallow embedding conventions:
* `time.Time` instants and `time.Duration` values are integer nanosecond
  counts (`Int`); Go's `Time.Unix()` truncates to whole seconds, which for
  the positive divisor `10^9` is floor division, i.e. Lean's `Int` `/`.
* the Go map `map[string]storageData` is an association list with
  first-match lookup; insertion erases the key first, deletion erases it.
* values (Go `any`) are a type parameter `α`; handler functions
  (`HandlerFunc`) are opaque identifiers of a type parameter `H`, and hook
  dispatch is recorded as an event trace instead of calling closures.
* `Get`'s `(any, error)` result is an `Except CacheError α`.
* each operation that reads the clock in Go (`time.Now()`) takes the
  current instant `now : Int` as an explicit argument.
-/

namespace Addcache

/-- Unix second of an instant given in nanoseconds, as Go `Time.Unix()`:
floor division by `10^9` (Lean `Int` division is Euclidean, which equals
floor division for a positive divisor). -/
def unixOf (t : Int) : Int := t / 1000000000

/-- Go `OperationType` is a string type. -/
abbrev OperationType := String

/-- The `Delete` operation kind constant. -/
def DeleteOperation : OperationType := "Delete"

/-- The `Create` operation kind constant. -/
def CreateOperation : OperationType := "Create"

/-- The default key delimiter constant `":"`. -/
def defaultDelimiter : String := ":"

/-- The single error value `ErrCacheKeyNotFound`. -/
inductive CacheError where
  | cacheKeyNotFound
deriving DecidableEq

/-- Go struct `storageData`: one cache entry. -/
structure StorageData (α : Type) where
  isPersistence : Bool
  setTime : Int
  expireDuration : Int
  data : α
deriving DecidableEq

/-- Go struct `storage`: the entry map and the hook registry. The stop
channel and synchronisation primitives are modelled separately. -/
structure Storage (α H : Type) where
  data : List (String × StorageData α)
  hooks : List (OperationType × List H)
deriving DecidableEq

/-- One recorded hook invocation: the operation kind whose handler list
was consulted, the handler invoked, and the `(key, data)` it was passed. -/
structure Event (α H : Type) where
  operation : OperationType
  handler : H
  key : String
  data : α
deriving DecidableEq

section MapModel

variable {κ β : Type} [DecidableEq κ]

/-- Lookup in the association-list model of a Go map (first match). -/
def mapLookup (m : List (κ × β)) (k : κ) : Option β :=
  (m.find? (fun p => p.1 = k)).map (fun p => p.2)

/-- Removal of a key from the association-list model of a Go map. -/
def mapErase (m : List (κ × β)) (k : κ) : List (κ × β) :=
  m.filter (fun p => ¬ p.1 = k)

/-- Insertion (overwrite) into the association-list model of a Go map. -/
def mapInsert (m : List (κ × β)) (k : κ) (v : β) : List (κ × β) :=
  (k, v) :: mapErase m k

end MapModel

variable {α H : Type}

/-- Go method `processHooks`: if the kind has a registered handler
sequence, invoke each handler in order with `(key, data)`; recorded here
as the trace of invocations. -/
def processHooks (s : Storage α H) (operationType : OperationType)
    (key : String) (d : α) : List (Event α H) :=
  match mapLookup s.hooks operationType with
  | some handlerFunctions =>
      handlerFunctions.map (fun h => ⟨operationType, h, key, d⟩)
  | none => []

/-- Go method `Set`: store the entry as persistent with zero duration,
stamped at `now`, then fire the `Create` handlers. -/
def set (s : Storage α H) (key : String) (d : α) (now : Int) :
    Storage α H × List (Event α H) :=
  let s2 : Storage α H :=
    { s with data := mapInsert s.data key ⟨true, now, 0, d⟩ }
  (s2, processHooks s2 CreateOperation key d)

/-- Go method `SetEx`: store the entry as non-persistent with the given
duration, stamped at `now`, then fire the `Create` handlers. -/
def setEx (s : Storage α H) (key : String) (d : α) (duration : Int)
    (now : Int) : Storage α H × List (Event α H) :=
  let s2 : Storage α H :=
    { s with data := mapInsert s.data key ⟨false, now, duration, d⟩ }
  (s2, processHooks s2 CreateOperation key d)

/-- Go method `Delete`: if the key has an entry, remove it and fire the
`Delete` handlers with the entry's stored data; otherwise do nothing. -/
def delete (s : Storage α H) (key : String) :
    Storage α H × List (Event α H) :=
  match mapLookup s.data key with
  | some d =>
      ({ s with data := mapErase s.data key },
       processHooks s DeleteOperation key d.data)
  | none => (s, [])

/-- The expiry test of Go method `removeIfExpired`:
`sd.setTime.Add(sd.expireDuration).Unix() <= time.Now().Unix()`. -/
def expiryDue (sd : StorageData α) (now : Int) : Bool :=
  unixOf (sd.setTime + sd.expireDuration) ≤ unixOf now

/-- Go method `removeIfExpired`: persistent entries are never expired;
a non-persistent entry whose truncated-to-seconds expiry instant has been
reached is deleted (firing `Delete` handlers) and reported expired. -/
def removeIfExpired (s : Storage α H) (key : String) (sd : StorageData α)
    (now : Int) : Storage α H × Bool × List (Event α H) :=
  if sd.isPersistence then (s, false, [])
  else if expiryDue sd now then
    let r := delete s key
    (r.1, true, r.2)
  else (s, false, [])

/-- Go method `Get`: look the key up; if present, run the lazy expiry
check, returning not-found when it removed the entry, and the stored data
otherwise; if absent, return not-found. -/
def get (s : Storage α H) (key : String) (now : Int) :
    Except CacheError α × Storage α H × List (Event α H) :=
  match mapLookup s.data key with
  | some value =>
      let r := removeIfExpired s key value now
      if r.2.1 then (Except.error CacheError.cacheKeyNotFound, r.1, r.2.2)
      else (Except.ok value.data, r.1, r.2.2)
  | none => (Except.error CacheError.cacheKeyNotFound, s, [])

/-- Go method `SetHook`. When the kind is already present in the hook map
the Go code appends each new handler to a local copy of the slice header
(`handlers = append(handlers, handlerFunction)`) and never stores the
result back into `s.hooks`, so the sequence held in the map is observably
unchanged; when the kind is absent it stores the given sequence. -/
def setHook (s : Storage α H) (operationType : OperationType)
    (handlerFunctions : List H) : Storage α H :=
  match mapLookup s.hooks operationType with
  | some _handlers => s
  | none =>
      { s with hooks := mapInsert s.hooks operationType handlerFunctions }

/-- One pass of the body of Go method `cleanupLoop`'s ticker case: iterate
over a snapshot of the entries, applying `removeIfExpired` to each against
the evolving store, concatenating the fired events. -/
def sweepEntries (s : Storage α H) (entries : List (String × StorageData α))
    (now : Int) : Storage α H × List (Event α H) :=
  match entries with
  | [] => (s, [])
  | (k, sd) :: rest =>
      let r := removeIfExpired s k sd now
      let r2 := sweepEntries r.1 rest now
      (r2.1, r.2.2 ++ r2.2)

/-- One tick of the background sweeper: `cleanupLoop` ranges over the
whole map, calling `removeIfExpired` on every entry. -/
def sweep (s : Storage α H) (now : Int) : Storage α H × List (Event α H) :=
  sweepEntries s s.data now

/-- Go `strings.Join`: concatenate the parts with the separator between
consecutive parts. -/
def stringsJoin : List String → String → String
  | [], _ => ""
  | [x], _ => x
  | x :: rest, sep => x ++ sep ++ stringsJoin rest sep

/-- Go method `CreateKeyWithDelimiter` delegates to `strings.Join`; it
consults no store state. -/
def createKeyWithDelimiter (_s : Storage α H) (delimiter : String)
    (args : List String) : String :=
  stringsJoin args delimiter

/-- Go method `CreateKey`: join with the default delimiter `":"`. -/
def createKey (s : Storage α H) (args : List String) : String :=
  createKeyWithDelimiter s defaultDelimiter args

/-- Modelled from the code's stop-channel discipline: `cleanupLoop`
receives from the unbuffered `stop` channel at most once (its `select`
returns on receipt), so the sweeper goroutine is either still running its
loop or has exited for good. -/
inductive SweeperState where
  | running
  | stopped
deriving DecidableEq

/-- Go method `StopCleanup` performs `s.stop <- struct{}{}` on the
unbuffered channel: `some` means a receiver (the live sweeper) takes the
value and the sweeper exits; `none` means no receiver exists now or ever,
so the sending caller blocks forever. -/
def stopCleanup : SweeperState → Option SweeperState
  | SweeperState.running => some SweeperState.stopped
  | SweeperState.stopped => none

/-- One caller-visible cache operation together with the clock instant at
which it runs, for reasoning about operation sequences. -/
inductive CacheOp (α : Type) where
  | opSet (key : String) (d : α)
  | opSetEx (key : String) (d : α) (duration : Int)
  | opGet (key : String)
  | opDelete (key : String)
  | opSweep
deriving DecidableEq

/-- Whether an operation writes to or deletes the given key (the only
ways an entry for that key can be replaced or removed explicitly). -/
def writesKey (op : CacheOp α) (k : String) : Bool :=
  match op with
  | CacheOp.opSet k2 _ => k2 = k
  | CacheOp.opSetEx k2 _ _ => k2 = k
  | CacheOp.opDelete k2 => k2 = k
  | CacheOp.opGet _ => false
  | CacheOp.opSweep => false

/-- Apply one operation at instant `now`, keeping only the store state. -/
def applyOp (s : Storage α H) (now : Int) : CacheOp α → Storage α H
  | CacheOp.opSet k d => (set s k d now).1
  | CacheOp.opSetEx k d dur => (setEx s k d dur now).1
  | CacheOp.opGet k => (get s k now).2.1
  | CacheOp.opDelete k => (delete s k).1
  | CacheOp.opSweep => (sweep s now).1

/-- Run a timed sequence of operations from a starting state. -/
def run (s : Storage α H) (ops : List (Int × CacheOp α)) : Storage α H :=
  ops.foldl (fun st p => applyOp st p.1 p.2) s

/-- Well-formedness of a store: the entry map binds each key at most
once, as a real Go map does. -/
def WF (s : Storage α H) : Prop :=
  (s.data.map Prod.fst).Nodup

/-- The empty store produced by the factory. -/
def emptyStorage : Storage α H := ⟨[], []⟩

section MapLemmas

variable {κ β : Type} [DecidableEq κ]

theorem mapLookup_cons (p : κ × β) (m : List (κ × β)) (k : κ) :
    mapLookup (p :: m) k = if p.1 = k then some p.2 else mapLookup m k := by
  by_cases h : p.1 = k <;> simp [mapLookup, List.find?_cons, h]

theorem mapLookup_mapInsert_self (m : List (κ × β)) (k : κ) (v : β) :
    mapLookup (mapInsert m k v) k = some v := by
  simp [mapInsert, mapLookup_cons]

theorem mapErase_cons (p : κ × β) (m : List (κ × β)) (k : κ) :
    mapErase (p :: m) k =
      if p.1 = k then mapErase m k else p :: mapErase m k := by
  by_cases h : p.1 = k <;> simp [mapErase, List.filter_cons, h]

theorem mapLookup_mapErase_ne (m : List (κ × β)) {k k2 : κ}
    (h : k2 ≠ k) : mapLookup (mapErase m k) k2 = mapLookup m k2 := by
  induction m with
  | nil => rfl
  | cons p rest ih =>
      rw [mapErase_cons, mapLookup_cons]
      by_cases hp : p.1 = k
      · have hk2 : p.1 ≠ k2 := fun e => h (e ▸ hp)
        have hkk2 : k ≠ k2 := fun e => h e.symm
        simp [hp, hk2, hkk2, ih]
      · rw [if_neg hp, mapLookup_cons]
        by_cases hk2 : p.1 = k2 <;> simp [hk2, ih]

theorem mapLookup_mapErase_self (m : List (κ × β)) (k : κ) :
    mapLookup (mapErase m k) k = none := by
  induction m with
  | nil => rfl
  | cons p rest ih =>
      rw [mapErase_cons]
      by_cases hp : p.1 = k
      · simp [hp, ih]
      · rw [if_neg hp, mapLookup_cons]
        simp [hp, ih]

theorem mapLookup_mapInsert_ne (m : List (κ × β)) {k k2 : κ} (v : β)
    (h : k2 ≠ k) : mapLookup (mapInsert m k v) k2 = mapLookup m k2 := by
  rw [mapInsert, mapLookup_cons]
  have hk : k ≠ k2 := fun e => h e.symm
  simp [hk, mapLookup_mapErase_ne m h]

theorem mapErase_sublist (m : List (κ × β)) (k : κ) :
    (mapErase m k).Sublist m :=
  List.filter_sublist m

theorem keys_nodup_mapErase (m : List (κ × β)) (k : κ)
    (h : (m.map Prod.fst).Nodup) : ((mapErase m k).map Prod.fst).Nodup :=
  ((mapErase_sublist m k).map Prod.fst).nodup h

theorem not_mem_keys_mapErase (m : List (κ × β)) (k : κ) :
    k ∉ (mapErase m k).map Prod.fst := by
  intro hmem
  rcases List.mem_map.mp hmem with ⟨p, hp, hfst⟩
  rcases List.mem_filter.mp hp with ⟨_, hne⟩
  simp [hfst] at hne

theorem keys_nodup_mapInsert (m : List (κ × β)) (k : κ) (v : β)
    (h : (m.map Prod.fst).Nodup) :
    ((mapInsert m k v).map Prod.fst).Nodup := by
  rw [mapInsert]
  exact List.nodup_cons.mpr ⟨not_mem_keys_mapErase m k, keys_nodup_mapErase m k h⟩

theorem mapLookup_eq_of_mem {m : List (κ × β)} {k : κ} {v : β}
    (hnd : (m.map Prod.fst).Nodup) (hmem : (k, v) ∈ m) :
    mapLookup m k = some v := by
  induction m with
  | nil => cases hmem
  | cons p rest ih =>
      rcases List.mem_cons.mp hmem with hhead | htail
      · rw [← hhead, mapLookup_cons]
        simp
      · rw [mapLookup_cons]
        have hk : p.1 ≠ k := by
          intro he
          have : k ∈ rest.map Prod.fst :=
            List.mem_map.mpr ⟨(k, v), htail, rfl⟩
          exact (List.nodup_cons.mp hnd).1 (he ▸ this)
        simp [hk]
        exact ih (List.nodup_cons.mp hnd).2 htail

end MapLemmas

theorem unixOf_mono {a b : Int} (h : a ≤ b) : unixOf a ≤ unixOf b :=
  Int.ediv_le_ediv (by norm_num) h

theorem delete_of_lookup_none {s : Storage α H} {key : String}
    (h : mapLookup s.data key = none) : delete s key = (s, []) := by
  simp [delete, h]

theorem delete_of_lookup_some {s : Storage α H} {key : String}
    {sd : StorageData α} (h : mapLookup s.data key = some sd) :
    delete s key = ({ s with data := mapErase s.data key },
      processHooks s DeleteOperation key sd.data) := by
  simp [delete, h]

theorem get_of_lookup_none {s : Storage α H} {key : String} (now : Int)
    (h : mapLookup s.data key = none) :
    get s key now = (Except.error CacheError.cacheKeyNotFound, s, []) := by
  simp [get, h]

theorem get_of_persistent {s : Storage α H} {key : String}
    {sd : StorageData α} (now : Int) (h : mapLookup s.data key = some sd)
    (hp : sd.isPersistence = true) :
    get s key now = (Except.ok sd.data, s, []) := by
  simp [get, h, removeIfExpired, hp]

theorem get_of_live {s : Storage α H} {key : String}
    {sd : StorageData α} {now : Int} (h : mapLookup s.data key = some sd)
    (hp : sd.isPersistence = false) (he : expiryDue sd now = false) :
    get s key now = (Except.ok sd.data, s, []) := by
  simp [get, h, removeIfExpired, hp, he]

theorem get_of_expired {s : Storage α H} {key : String}
    {sd : StorageData α} {now : Int} (h : mapLookup s.data key = some sd)
    (hp : sd.isPersistence = false) (he : expiryDue sd now = true) :
    get s key now = (Except.error CacheError.cacheKeyNotFound,
      { s with data := mapErase s.data key },
      processHooks s DeleteOperation key sd.data) := by
  simp [get, h, removeIfExpired, hp, he, delete]

theorem processHooks_eq (s : Storage α H) (op : OperationType)
    (key : String) (d : α) :
    processHooks s op key d =
      ((mapLookup s.hooks op).getD []).map (fun h => ⟨op, h, key, d⟩) := by
  unfold processHooks
  cases mapLookup s.hooks op <;> simp

theorem removeIfExpired_state (s : Storage α H) (key : String)
    (sd : StorageData α) (now : Int) :
    (removeIfExpired s key sd now).1 = s ∨
    (sd.isPersistence = false ∧
      (removeIfExpired s key sd now).1 = { s with data := mapErase s.data key }) := by
  cases hp : sd.isPersistence with
  | true =>
      left
      simp [removeIfExpired, hp]
  | false =>
      cases he : expiryDue sd now with
      | false =>
          left
          simp [removeIfExpired, hp, he]
      | true =>
          cases hl : mapLookup s.data key with
          | none =>
              left
              simp [removeIfExpired, hp, he, delete_of_lookup_none hl]
          | some d =>
              refine Or.inr ⟨rfl, ?_⟩
              simp [removeIfExpired, hp, he, delete_of_lookup_some hl]

theorem get_state (s : Storage α H) (key : String) (now : Int) :
    (get s key now).2.1 = s ∨
    (get s key now).2.1 = { s with data := mapErase s.data key } := by
  unfold get
  cases hl : mapLookup s.data key with
  | none => exact Or.inl rfl
  | some sd =>
      rcases removeIfExpired_state s key sd now with h | ⟨_, h⟩
      · by_cases hr : (removeIfExpired s key sd now).2.1 <;> simp [hr, h]
      · by_cases hr : (removeIfExpired s key sd now).2.1 <;> simp [hr, h]

theorem removeIfExpired_removed_eq {s : Storage α H} {key : String}
    {sd : StorageData α} {now : Int} (hp : sd.isPersistence = false) :
    (removeIfExpired s key sd now).2.1 = expiryDue sd now := by
  by_cases he : expiryDue sd now <;> simp [removeIfExpired, hp, he]

theorem sweepEntries_data_sublist (entries : List (String × StorageData α))
    (s : Storage α H) (now : Int) :
    (sweepEntries s entries now).1.data.Sublist s.data := by
  induction entries generalizing s with
  | nil => exact List.Sublist.refl _
  | cons p rest ih =>
      obtain ⟨k1, sd1⟩ := p
      have hstep : (sweepEntries s ((k1, sd1) :: rest) now).1 =
          (sweepEntries (removeIfExpired s k1 sd1 now).1 rest now).1 := rfl
      rw [hstep]
      rcases removeIfExpired_state s k1 sd1 now with h | ⟨_, h⟩
      · rw [h]
        exact ih s
      · rw [h]
        exact (ih _).trans (List.filter_sublist _)

theorem sweepEntries_lookup_persistent
    (entries : List (String × StorageData α)) (s : Storage α H) (now : Int)
    {k : String} {sd : StorageData α}
    (hk : mapLookup s.data k = some sd)
    (hent : ∀ sd2 : StorageData α, (k, sd2) ∈ entries →
      sd2.isPersistence = true) :
    mapLookup (sweepEntries s entries now).1.data k = some sd := by
  induction entries generalizing s with
  | nil => exact hk
  | cons p rest ih =>
      obtain ⟨k1, sd1⟩ := p
      have hstep : (sweepEntries s ((k1, sd1) :: rest) now).1 =
          (sweepEntries (removeIfExpired s k1 sd1 now).1 rest now).1 := rfl
      rw [hstep]
      have hmid : mapLookup (removeIfExpired s k1 sd1 now).1.data k = some sd := by
        rcases removeIfExpired_state s k1 sd1 now with h | ⟨hnp, h⟩
        · rw [h]; exact hk
        · have hne : k ≠ k1 := by
            intro e
            have hper := hent sd1 (by rw [e]; exact List.mem_cons_self _ _)
            rw [hper] at hnp
            cases hnp
          rw [h]
          rw [show ({ s with data := mapErase s.data k1 } : Storage α H).data
            = mapErase s.data k1 from rfl]
          rw [mapLookup_mapErase_ne s.data hne]
          exact hk
      exact ih _ hmid (fun sd2 hm => hent sd2 (List.mem_cons_of_mem _ hm))

theorem applyOp_WF (s : Storage α H) (now : Int) (op : CacheOp α)
    (h : WF s) : WF (applyOp s now op) := by
  cases op with
  | opSet k d => exact keys_nodup_mapInsert s.data k _ h
  | opSetEx k d dur => exact keys_nodup_mapInsert s.data k _ h
  | opGet k =>
      show WF (get s k now).2.1
      rcases get_state s k now with hg | hg
      · rw [hg]; exact h
      · rw [hg]; exact keys_nodup_mapErase s.data k h
  | opDelete k =>
      show WF (delete s k).1
      cases hl : mapLookup s.data k with
      | none => rw [delete_of_lookup_none hl]; exact h
      | some sd =>
          rw [delete_of_lookup_some hl]
          exact keys_nodup_mapErase s.data k h
  | opSweep =>
      show WF (sweep s now).1
      exact ((sweepEntries_data_sublist s.data s now).map Prod.fst).nodup h

theorem applyOp_lookup_persistent (s : Storage α H) (now : Int)
    (op : CacheOp α) {k : String} {sd : StorageData α}
    (hwf : WF s) (hk : mapLookup s.data k = some sd)
    (hp : sd.isPersistence = true)
    (hop : writesKey op k = false) :
    mapLookup (applyOp s now op).data k = some sd := by
  cases op with
  | opSet k1 d =>
      have hne : k ≠ k1 := by
        simp [writesKey] at hop
        exact fun e => hop e.symm
      show mapLookup (mapInsert s.data k1 _) k = some sd
      rw [mapLookup_mapInsert_ne s.data _ hne]
      exact hk
  | opSetEx k1 d dur =>
      have hne : k ≠ k1 := by
        simp [writesKey] at hop
        exact fun e => hop e.symm
      show mapLookup (mapInsert s.data k1 _) k = some sd
      rw [mapLookup_mapInsert_ne s.data _ hne]
      exact hk
  | opGet k1 =>
      show mapLookup (get s k1 now).2.1.data k = some sd
      by_cases hke : k1 = k
      · rw [hke, get_of_persistent now hk hp]
        exact hk
      · rcases get_state s k1 now with hg | hg
        · rw [hg]; exact hk
        · rw [hg]
          rw [show ({ s with data := mapErase s.data k1 } : Storage α H).data
            = mapErase s.data k1 from rfl]
          rw [mapLookup_mapErase_ne s.data (fun e => hke e.symm)]
          exact hk
  | opDelete k1 =>
      have hne : k ≠ k1 := by
        simp [writesKey] at hop
        exact fun e => hop e.symm
      show mapLookup (delete s k1).1.data k = some sd
      cases hl : mapLookup s.data k1 with
      | none => rw [delete_of_lookup_none hl]; exact hk
      | some d =>
          rw [delete_of_lookup_some hl]
          rw [show ({ s with data := mapErase s.data k1 } : Storage α H).data
            = mapErase s.data k1 from rfl]
          rw [mapLookup_mapErase_ne s.data hne]
          exact hk
  | opSweep =>
      show mapLookup (sweep s now).1.data k = some sd
      refine sweepEntries_lookup_persistent s.data s now hk ?_
      intro sd2 hm
      have h2 : mapLookup s.data k = some sd2 := mapLookup_eq_of_mem hwf hm
      have : sd2 = sd := by
        rw [h2] at hk
        exact Option.some.inj hk
      rw [this]
      exact hp

theorem run_lookup_persistent (ops : List (Int × CacheOp α))
    (s : Storage α H) {k : String} {sd : StorageData α}
    (hwf : WF s) (hk : mapLookup s.data k = some sd)
    (hp : sd.isPersistence = true)
    (hops : ∀ p ∈ ops, writesKey p.2 k = false) :
    mapLookup (run s ops).data k = some sd := by
  induction ops generalizing s with
  | nil => exact hk
  | cons p rest ih =>
      obtain ⟨now, op⟩ := p
      have hp1 := hops _ (List.mem_cons_self _ _)
      have hstep : run s ((now, op) :: rest) = run (applyOp s now op) rest := rfl
      rw [hstep]
      exact ih _ (applyOp_WF s now op hwf)
        (applyOp_lookup_persistent s now op hwf hk hp hp1)
        (fun q hq => hops q (List.mem_cons_of_mem _ hq))

/-!
Claim theorems.
-/

/-- C1: the claim that SetHook appends new handlers to an already
registered kind fails on the code. After registering handler 1 for the
Create kind and then handler 2 for the same kind, the hook registry still
holds only handler 1, and a subsequent Set fires only handler 1: the Go
code appends to a local copy of the slice header and never stores the
result back into the map. -/
theorem C1_sethook_drops_new_handlers :
    mapLookup (setHook (setHook (emptyStorage : Storage Nat Nat)
        CreateOperation [1]) CreateOperation [2]).hooks CreateOperation
      = some [1]
    ∧ (set (setHook (setHook (emptyStorage : Storage Nat Nat)
        CreateOperation [1]) CreateOperation [2]) "k" 5 0).2
      = [⟨CreateOperation, 1, "k", 5⟩] :=
  ⟨rfl, rfl⟩

/-- C2: Get returns the stored value with no error exactly when the key
has an entry that is persistent or whose truncated expiry instant has not
been reached; an absent key yields the not-found error with no state
change and no hook firing; a present but expired entry yields the
not-found error, removes the entry from the store, and fires one Delete
handler invocation per registered Delete handler with the entry's data. -/
theorem C2_get_spec (s : Storage α H) (key : String) (now : Int) :
    (∀ sd : StorageData α, mapLookup s.data key = some sd →
        (sd.isPersistence = true ∨ expiryDue sd now = false) →
        get s key now = (Except.ok sd.data, s, []))
    ∧ (mapLookup s.data key = none →
        get s key now = (Except.error CacheError.cacheKeyNotFound, s, []))
    ∧ (∀ sd : StorageData α, mapLookup s.data key = some sd →
        sd.isPersistence = false → expiryDue sd now = true →
        get s key now = (Except.error CacheError.cacheKeyNotFound,
          { s with data := mapErase s.data key },
          ((mapLookup s.hooks DeleteOperation).getD []).map
            (fun h => ⟨DeleteOperation, h, key, sd.data⟩))) := by
  refine ⟨?_, fun h => get_of_lookup_none now h, ?_⟩
  · intro sd hs hcase
    by_cases hp : sd.isPersistence = true
    · exact get_of_persistent now hs hp
    · have hp2 : sd.isPersistence = false := by
        simp at hp
        exact hp
      rcases hcase with hc | hc
      · exact absurd hc hp
      · exact get_of_live hs hp2 hc
  · intro sd hs hp he
    rw [get_of_expired hs hp he, processHooks_eq]

/-- C2 witness: a concrete expired entry is reported not-found, removed,
and its Delete handler fired. -/
theorem C2_witness :
    get (⟨[("k", ⟨false, 0, 1000000000, 42⟩)], [(DeleteOperation, [7])]⟩ :
        Storage Nat Nat) "k" 2000000000
      = (Except.error CacheError.cacheKeyNotFound,
        ⟨[], [(DeleteOperation, [7])]⟩,
        [⟨DeleteOperation, 7, "k", 42⟩]) := by
  have h := (C2_get_spec (⟨[("k", ⟨false, 0, 1000000000, 42⟩)],
      [(DeleteOperation, [7])]⟩ : Storage Nat Nat) "k" 2000000000).2.2
      ⟨false, 0, 1000000000, 42⟩ rfl rfl (by decide)
  rw [h]
  rfl

/-- C3: the claim fails on the code. SetEx at instant 999999999 ns with a
duration of one second gives the exact expiry instant 1999999999 ns; a
Get at instant 1000000000 ns, when only 1 ns of the duration has elapsed
(strictly before the expiry instant), already returns not-found, because
the expiry comparison truncates both instants to whole Unix seconds. -/
theorem C3_counterexample :
    (1000000000 : Int) < 999999999 + 1000000000
    ∧ (get (setEx (emptyStorage : Storage Nat Nat) "k" 7 1000000000
        999999999).1 "k" 1000000000).1
      = Except.error CacheError.cacheKeyNotFound :=
  ⟨by decide, rfl⟩

/-- C3 amended: after SetEx(k, v, d) at instant t with d positive, a Get
at an instant now lying in a strictly earlier Unix second than the expiry
instant t + d returns (v, no-error); once d has fully elapsed
(t + d ≤ now), Get returns not-found. -/
theorem C3_expiry_boundary (s : Storage α H) (k : String) (v : α)
    (d t now : Int) (_hd : 0 < d) :
    (unixOf now < unixOf (t + d) →
      (get (setEx s k v d t).1 k now).1 = Except.ok v)
    ∧ (t + d ≤ now →
      (get (setEx s k v d t).1 k now).1
        = Except.error CacheError.cacheKeyNotFound) := by
  have hl : mapLookup (setEx s k v d t).1.data k
      = some ⟨false, t, d, v⟩ := by
    show mapLookup (mapInsert s.data k _) k = _
    rw [mapLookup_mapInsert_self]
  constructor
  · intro hlt
    have he : expiryDue (⟨false, t, d, v⟩ : StorageData α) now = false := by
      simp only [expiryDue, decide_eq_false_iff_not, not_le]
      exact hlt
    rw [get_of_live hl rfl he]
  · intro hge
    have he : expiryDue (⟨false, t, d, v⟩ : StorageData α) now = true := by
      simp only [expiryDue, decide_eq_true_eq]
      exact unixOf_mono hge
    rw [get_of_expired hl rfl he]

/-- C3 witness: with a 2 s duration set at instant 0, a Get at 0.5 s
returns the value and a Get at exactly 2 s returns not-found. -/
theorem C3_witness :
    (0 : Int) < 2000000000
    ∧ (get (setEx (emptyStorage : Storage Nat Nat) "k" 5 2000000000 0).1
        "k" 500000000).1 = Except.ok 5
    ∧ (get (setEx (emptyStorage : Storage Nat Nat) "k" 5 2000000000 0).1
        "k" 2000000000).1 = Except.error CacheError.cacheKeyNotFound := by
  have h1 := C3_expiry_boundary (emptyStorage : Storage Nat Nat) "k" 5
      2000000000 0 500000000 (by decide)
  have h2 := C3_expiry_boundary (emptyStorage : Storage Nat Nat) "k" 5
      2000000000 0 2000000000 (by decide)
  exact ⟨by decide, h1.1 (by decide), h2.2 (by decide)⟩

/-- C4: Set followed immediately by Get on the same key returns the
written value with no error, whatever the prior contents of the store. -/
theorem C4_round_trip (s : Storage α H) (k : String) (v : α) (t : Int) :
    (get (set s k v t).1 k t).1 = Except.ok v := by
  have hl : mapLookup (set s k v t).1.data k = some ⟨true, t, 0, v⟩ := by
    show mapLookup (mapInsert s.data k _) k = _
    rw [mapLookup_mapInsert_self]
  rw [get_of_persistent t hl rfl]

/-- C5: Delete on an absent key leaves the store unchanged and fires no
handler; Delete on a present key removes the entry and fires exactly one
Delete handler invocation per registered Delete handler, in registration
order, passing the entry's stored data. -/
theorem C5_delete_spec (s : Storage α H) (k : String) :
    (mapLookup s.data k = none → delete s k = (s, []))
    ∧ (∀ sd : StorageData α, mapLookup s.data k = some sd →
        delete s k = ({ s with data := mapErase s.data k },
          ((mapLookup s.hooks DeleteOperation).getD []).map
            (fun h => ⟨DeleteOperation, h, k, sd.data⟩))) := by
  refine ⟨fun h => delete_of_lookup_none h, fun sd h => ?_⟩
  rw [delete_of_lookup_some h, processHooks_eq]

/-- C5 witness: a concrete no-op delete and a concrete firing delete. -/
theorem C5_witness :
    delete (⟨[], [(DeleteOperation, [3])]⟩ : Storage Nat Nat) "a"
      = (⟨[], [(DeleteOperation, [3])]⟩, [])
    ∧ delete (⟨[("a", ⟨true, 0, 0, 9⟩)], [(DeleteOperation, [3])]⟩ :
        Storage Nat Nat) "a"
      = (⟨[], [(DeleteOperation, [3])]⟩, [⟨DeleteOperation, 3, "a", 9⟩]) := by
  constructor
  · exact (C5_delete_spec (⟨[], [(DeleteOperation, [3])]⟩ :
      Storage Nat Nat) "a").1 rfl
  · have h := (C5_delete_spec (⟨[("a", ⟨true, 0, 0, 9⟩)],
        [(DeleteOperation, [3])]⟩ : Storage Nat Nat) "a").2 ⟨true, 0, 0, 9⟩ rfl
    rw [h]
    rfl

/-- C6: an entry written by Set is persistent and survives any sequence
of further operations that never writes to or deletes its key: Get calls
on any key and background sweep ticks at arbitrary instants never remove
it, and it keeps exactly the value and metadata that Set stored. -/
theorem C6_persistent_entry_survives (s : Storage α H) (k : String)
    (v : α) (t : Int) (ops : List (Int × CacheOp α)) (hwf : WF s)
    (hops : ∀ p ∈ ops, writesKey p.2 k = false) :
    mapLookup (run (set s k v t).1 ops).data k = some ⟨true, t, 0, v⟩ := by
  have hwf2 : WF (set s k v t).1 := keys_nodup_mapInsert s.data k _ hwf
  have hk : mapLookup (set s k v t).1.data k = some ⟨true, t, 0, v⟩ := by
    show mapLookup (mapInsert s.data k _) k = _
    rw [mapLookup_mapInsert_self]
  exact run_lookup_persistent ops _ hwf2 hk rfl hops

/-- C6 witness: a persistent entry survives sweeps, reads, and writes and
deletes of a different key spread over two minutes. -/
theorem C6_witness :
    mapLookup (run (set (emptyStorage : Storage Nat Nat) "k" 1 0).1
      [(31000000000, CacheOp.opSweep), (40000000000, CacheOp.opGet "k"),
       (50000000000, CacheOp.opSetEx "j" 9 1000000000),
       (100000000000, CacheOp.opSweep),
       (120000000000, CacheOp.opDelete "j"),
       (130000000000, CacheOp.opGet "k")]).data "k"
      = some ⟨true, 0, 0, 1⟩ :=
  C6_persistent_entry_survives (emptyStorage : Storage Nat Nat) "k" 1 0
    [(31000000000, CacheOp.opSweep), (40000000000, CacheOp.opGet "k"),
     (50000000000, CacheOp.opSetEx "j" 9 1000000000),
     (100000000000, CacheOp.opSweep),
     (120000000000, CacheOp.opDelete "j"),
     (130000000000, CacheOp.opGet "k")]
    List.nodup_nil (by decide)

/-- C7: writing to a key that already has an entry replaces the entry
record entirely (value, persistence flag, creation timestamp, duration),
fires exactly one Create event per registered Create handler, and a
subsequent Get reflects only the latest write (unconditionally for Set,
and whenever the new entry's expiry is not due for SetEx). -/
theorem C7_overwrite (s : Storage α H) (k : String) (old : StorageData α)
    (v : α) (d t now : Int) (_hold : mapLookup s.data k = some old) :
    (mapLookup (set s k v t).1.data k = some ⟨true, t, 0, v⟩
      ∧ (set s k v t).2
        = ((mapLookup s.hooks CreateOperation).getD []).map
            (fun h => ⟨CreateOperation, h, k, v⟩)
      ∧ (get (set s k v t).1 k now).1 = Except.ok v)
    ∧ (mapLookup (setEx s k v d t).1.data k = some ⟨false, t, d, v⟩
      ∧ (setEx s k v d t).2
        = ((mapLookup s.hooks CreateOperation).getD []).map
            (fun h => ⟨CreateOperation, h, k, v⟩)
      ∧ (expiryDue (⟨false, t, d, v⟩ : StorageData α) now = false →
          (get (setEx s k v d t).1 k now).1 = Except.ok v)) := by
  have hls : mapLookup (set s k v t).1.data k = some ⟨true, t, 0, v⟩ := by
    show mapLookup (mapInsert s.data k _) k = _
    rw [mapLookup_mapInsert_self]
  have hlx : mapLookup (setEx s k v d t).1.data k
      = some ⟨false, t, d, v⟩ := by
    show mapLookup (mapInsert s.data k _) k = _
    rw [mapLookup_mapInsert_self]
  refine ⟨⟨hls, ?_, ?_⟩, ⟨hlx, ?_, ?_⟩⟩
  · show processHooks (set s k v t).1 CreateOperation k v = _
    rw [processHooks_eq]
    rfl
  · rw [get_of_persistent now hls rfl]
  · show processHooks (setEx s k v d t).1 CreateOperation k v = _
    rw [processHooks_eq]
    rfl
  · intro he
    rw [get_of_live hlx rfl he]

/-- C7 witness: overwriting a non-persistent entry with Set replaces it
entirely, fires the single registered Create handler once, and the value
is readable long after. -/
theorem C7_witness :
    mapLookup (set (⟨[("k", ⟨false, 5, 5, 0⟩)], [(CreateOperation, [2])]⟩ :
        Storage Nat Nat) "k" 4 0).1.data "k" = some ⟨true, 0, 0, 4⟩
    ∧ (set (⟨[("k", ⟨false, 5, 5, 0⟩)], [(CreateOperation, [2])]⟩ :
        Storage Nat Nat) "k" 4 0).2 = [⟨CreateOperation, 2, "k", 4⟩]
    ∧ (get (set (⟨[("k", ⟨false, 5, 5, 0⟩)], [(CreateOperation, [2])]⟩ :
        Storage Nat Nat) "k" 4 0).1 "k" 999999999999).1 = Except.ok 4 := by
  have h := C7_overwrite (⟨[("k", ⟨false, 5, 5, 0⟩)],
      [(CreateOperation, [2])]⟩ : Storage Nat Nat) "k" ⟨false, 5, 5, 0⟩
      4 77 0 999999999999 rfl
  exact ⟨h.1.1, h.1.2.1.trans (by rfl), h.1.2.2⟩

/-- C8: the expiry test compares the expiry instant and the current
instant truncated to whole Unix seconds with a non-strict inequality: a
non-persistent entry is removed as expired exactly when
unixOf (setTime + expireDuration) ≤ unixOf now; in particular an entry
can be reported expired 999999999 ns before its exact expiry instant,
and a zero duration makes the entry expired at any check at or after its
set time. -/
theorem C8_truncated_expiry :
    (∀ (s : Storage Nat Nat) (key : String) (sd : StorageData Nat)
        (now : Int), sd.isPersistence = false →
        ((removeIfExpired s key sd now).2.1 = true ↔
          unixOf (sd.setTime + sd.expireDuration) ≤ unixOf now))
    ∧ (∃ (sd : StorageData Nat) (now : Int),
        sd.isPersistence = false
        ∧ now + 999999999 = sd.setTime + sd.expireDuration
        ∧ (removeIfExpired (emptyStorage : Storage Nat Nat) "k" sd
            now).2.1 = true)
    ∧ (∀ (s : Storage Nat Nat) (key : String) (sd : StorageData Nat)
        (now : Int), sd.isPersistence = false → sd.expireDuration = 0 →
        sd.setTime ≤ now → (removeIfExpired s key sd now).2.1 = true) := by
  refine ⟨?_, ?_, ?_⟩
  · intro s key sd now hp
    rw [removeIfExpired_removed_eq hp]
    simp [expiryDue]
  · refine ⟨⟨false, 0, 1999999999, 0⟩, 1000000000, rfl, by decide, ?_⟩
    rw [removeIfExpired_removed_eq rfl]
    decide
  · intro s key sd now hp hdur hle
    rw [removeIfExpired_removed_eq hp]
    simp only [expiryDue, hdur, add_zero, decide_eq_true_eq]
    exact unixOf_mono hle

/-- C8 witness: the characterization and the zero-duration consequence at
concrete inputs. -/
theorem C8_witness :
    ((removeIfExpired (emptyStorage : Storage Nat Nat) "k"
        ⟨false, 0, 1500000000, 3⟩ 1000000000).2.1 = true ↔
      unixOf ((0 : Int) + 1500000000) ≤ unixOf 1000000000)
    ∧ (removeIfExpired (emptyStorage : Storage Nat Nat) "k"
        ⟨false, 4, 0, 3⟩ 10).2.1 = true :=
  ⟨C8_truncated_expiry.1 emptyStorage "k" ⟨false, 0, 1500000000, 3⟩
      1000000000 rfl,
   C8_truncated_expiry.2.2 emptyStorage "k" ⟨false, 4, 0, 3⟩ 10 rfl rfl
      (by decide)⟩

/-- C9: the claim that a second StopCleanup call must not deadlock fails
on the code. The first send on the unbuffered stop channel is received by
the live sweeper, which then exits its loop for good; a second send has
no receiver now or ever, so the caller blocks forever (modelled as the
absence of a successor state). -/
theorem C9_stop_cleanup_second_call_blocks :
    stopCleanup SweeperState.running = some SweeperState.stopped
    ∧ stopCleanup SweeperState.stopped = none :=
  ⟨rfl, rfl⟩

/-- C10: CreateKey joins its parts with the default delimiter ":" and
CreateKeyWithDelimiter joins them with the given delimiter; both results
are independent of the store state (purity), and the spec's concrete
examples hold. -/
theorem C10_create_key_spec (s s2 : Storage Nat Nat) (delimiter : String)
    (args : List String) :
    createKey s args = stringsJoin args defaultDelimiter
    ∧ createKeyWithDelimiter s delimiter args = stringsJoin args delimiter
    ∧ createKey s args = createKey s2 args
    ∧ createKeyWithDelimiter s delimiter args
      = createKeyWithDelimiter s2 delimiter args
    ∧ createKey s ["a", "b"] = "a:b"
    ∧ createKeyWithDelimiter s "-" ["a", "b"] = "a-b" :=
  ⟨rfl, rfl, rfl, rfl, rfl, rfl⟩

end Addcache
